import Mathlib

/-!
Shallow embedding of the merge-daemon's durable store and queue engine
(`src/plugins/agent-fork-join/daemon/src/{state.rs, config.rs, error.rs, main.rs}`).

The SQLite tables are modelled as Lean lists of typed rows; machine effects
(UUID generation, wall-clock timestamps, the serde codecs for UUIDs, RFC 3339
timestamps and JSON string arrays) are threaded explicitly through a `Codec`
record so every store operation is a pure, executable function.  The modules
`queue.rs`, `ipc.rs` and `merger.rs` are referenced by `main.rs` but absent
from the sources; definitions taken from the design document instead of the
code carry a doc comment starting `Modelled from the spec:`.
-/

namespace ForkJoin

/-- Modelled from the spec: the entry lifecycle states of §4.1
(`Pending → Processing → {Completed, Conflict, Failed}`); the defining
`EntryStatus` enum lives in the absent `queue.rs`. -/
inductive EntryStatus where
  | Pending
  | Processing
  | Completed
  | Conflict
  | Failed
deriving DecidableEq, Repr

/-- Modelled from the spec: `serde_json::to_string` of an `EntryStatus`
value, as invoked by `StateManager::save_entry` (state.rs:98).  The spec names
the plain variant identifiers, so the default serde encoding applies: a unit
variant serializes as the JSON string of its name, quotes included. -/
def EntryStatus.toJson : EntryStatus → String
  | .Pending => "\"Pending\""
  | .Processing => "\"Processing\""
  | .Completed => "\"Completed\""
  | .Conflict => "\"Conflict\""
  | .Failed => "\"Failed\""

/-- Modelled from the spec: `serde_json::from_str::<EntryStatus>`, as invoked
by `StateManager::load_pending_entries` (state.rs:151): inverse of
`EntryStatus.toJson`, failing on any other string. -/
def EntryStatus.fromJson (s : String) : Option EntryStatus :=
  if s = "\"Pending\"" then some .Pending
  else if s = "\"Processing\"" then some .Processing
  else if s = "\"Completed\"" then some .Completed
  else if s = "\"Conflict\"" then some .Conflict
  else if s = "\"Failed\"" then some .Failed
  else none

/-- Modelled from the spec: `QueueEntry` (§3 data model; defined in the absent
`queue.rs`).  The opaque UUID id and the UTC timestamp are carried in their
textual forms. -/
structure QueueEntry where
  id : String
  agent_id : String
  session_id : String
  branch : String
  worktree : String
  target_branch : String
  attempts : Nat
  queued_at : String
  status : EntryStatus
  last_error : Option String
  conflict_files : List String
deriving DecidableEq, Repr

/-- One row of the `queue_entries` table (schema at state.rs:31-44).
`last_error` and `conflict_files` are the two nullable columns; all others are
declared NOT NULL. -/
structure RawRow where
  id : String
  agent_id : String
  session_id : String
  branch : String
  worktree : String
  target_branch : String
  attempts : Nat
  queued_at : String
  status : String
  last_error : Option String
  conflict_files : Option String
  updated_at : String
deriving DecidableEq, Repr

/-- One row of the `sessions` table (schema at state.rs:50-58). -/
structure SessionRow where
  id : String
  feature_branch : String
  base_branch : String
  original_prompt : Option String
  created_at : String
  state : String
  updated_at : String
deriving DecidableEq, Repr

/-- One row of the `merge_history` table (schema at state.rs:60-68);
`id` is the AUTOINCREMENT primary key, `merged_at` defaults to
CURRENT_TIMESTAMP at insert time. -/
structure MergeRow where
  id : Nat
  entry_id : String
  agent_id : String
  session_id : String
  commit_sha : Option String
  merged_at : String
deriving DecidableEq, Repr

/-- The `MergeRecord` struct (state.rs:213-217), the row shape returned by
`get_session_merges`. -/
structure MergeRecord where
  agent_id : String
  commit_sha : String
  merged_at : String
deriving DecidableEq, Repr

/-- The SQLite database owned by `StateManager`: the three tables plus the
AUTOINCREMENT counter of `merge_history`. -/
structure Store where
  queue_entries : List RawRow
  sessions : List SessionRow
  merge_history : List MergeRow
  next_merge_id : Nat
deriving DecidableEq, Repr

/-- The empty database produced by the schema initialization in
`StateManager::new`. -/
def Store.empty : Store :=
  { queue_entries := [], sessions := [], merge_history := [], next_merge_id := 1 }

/-- The library effects and codecs used by `state.rs`, passed explicitly:
`decUuid` models `Uuid::parse_str` (state.rs:141), `decTime` models
`chrono::DateTime::parse_from_rfc3339` (state.rs:148), `decFiles` and
`encFiles` model `serde_json` on `Vec<String>` (state.rs:81,153), `freshUuid`
models `Uuid::new_v4()` and `now` models `chrono::Utc::now()` /
CURRENT_TIMESTAMP for the call at hand. -/
structure Codec where
  decUuid : String → Option String
  decTime : String → Option String
  decFiles : String → Option (List String)
  encFiles : List String → String
  freshUuid : String
  now : String

/-- The row written for `entry` by `StateManager::save_entry`
(state.rs:83-102): every field in its textual form, `status` via serde_json,
`conflict_files` via serde_json, `updated_at := CURRENT_TIMESTAMP`. -/
def entryToRow (c : Codec) (e : QueueEntry) : RawRow :=
  { id := e.id
    agent_id := e.agent_id
    session_id := e.session_id
    branch := e.branch
    worktree := e.worktree
    target_branch := e.target_branch
    attempts := e.attempts
    queued_at := e.queued_at
    status := e.status.toJson
    last_error := e.last_error
    conflict_files := some (c.encFiles e.conflict_files)
    updated_at := c.now }

/-- Embeds `StateManager::save_entry` (state.rs:78-106): `INSERT OR REPLACE` keyed on
the `id` PRIMARY KEY — the conflicting row, if any, is deleted and the fresh
row inserted (appended, as SQLite assigns it a new rowid). -/
def save_entry (c : Codec) (e : QueueEntry) (s : Store) : Store :=
  { s with queue_entries :=
      (s.queue_entries.filter (fun r => r.id != e.id)) ++ [entryToRow c e] }

/-- Embeds `StateManager::delete_entry` (state.rs:109-119): `DELETE FROM
queue_entries WHERE id = ?1`. -/
def delete_entry (id : String) (s : Store) : Store :=
  { s with queue_entries := s.queue_entries.filter (fun r => r.id != id) }

/-- Embeds `StateManager::record_merge` (state.rs:163-181): append one row to
`merge_history`; `commit_sha` is always supplied, `merged_at` takes the
CURRENT_TIMESTAMP default. -/
def record_merge (entry_id agent_id session_id commit_sha : String)
    (now : String) (s : Store) : Store :=
  { s with
    merge_history := s.merge_history ++
      [{ id := s.next_merge_id
         entry_id := entry_id
         agent_id := agent_id
         session_id := session_id
         commit_sha := some commit_sha
         merged_at := now }]
    next_merge_id := s.next_merge_id + 1 }

/-- Byte-order comparison of character lists: the SQLite BINARY collation
used by `ORDER BY` on the TEXT columns `queued_at` and `merged_at`. -/
def charListLe : List Char → List Char → Bool
  | [], _ => true
  | _ :: _, [] => false
  | a :: as, b :: bs =>
      if a.toNat < b.toNat then true
      else if b.toNat < a.toNat then false
      else charListLe as bs

/-- BINARY-collation `≤` on TEXT values. -/
def textLe (a b : String) : Bool := charListLe a.toList b.toList

/-- BINARY-collation strict `<` on TEXT values. -/
def textLt (a b : String) : Bool := textLe a b && !(textLe b a)

/-- Insert into a `le`-sorted list, before the first element it is `le` to. -/
def insertLe (le : α → α → Bool) (x : α) : List α → List α
  | [] => [x]
  | y :: ys => if le x y then x :: y :: ys else y :: insertLe le x ys

/-- Stable insertion sort: the model of SQL `ORDER BY ... ASC`. -/
def sortLe (le : α → α → Bool) : List α → List α
  | [] => []
  | x :: xs => insertLe le x (sortLe le xs)

/-- Adjacent-pairs sortedness check. -/
def isSortedLe (le : α → α → Bool) : List α → Bool
  | [] => true
  | [_] => true
  | a :: b :: t => le a b && isSortedLe le (b :: t)

/-- The `WHERE status IN ('"Pending"', '"Processing"')` filter of the
recovery query (state.rs:129). -/
def rowMatchesRecovery (r : RawRow) : Bool :=
  r.status == "\"Pending\"" || r.status == "\"Processing\""

/-- Row comparison used by `ORDER BY queued_at ASC` (state.rs:130). -/
def rowQueuedLe (a b : RawRow) : Bool := textLe a.queued_at b.queued_at

/-- The row-to-entry conversion inside `query_map` (state.rs:135-154):
reading the nullable `conflict_files` column as a `String` fails on NULL, and
that row is then dropped by `filter_map(|r| r.ok())` (state.rs:156); each
parse failure falls back — unparseable id to a fresh UUID, unparseable
timestamp to now, unparseable status to Pending, unparseable file list to the
empty list. -/
def rowToEntry (c : Codec) (r : RawRow) : Option QueueEntry :=
  match r.conflict_files with
  | none => none
  | some cf =>
      some
        { id := (c.decUuid r.id).getD c.freshUuid
          agent_id := r.agent_id
          session_id := r.session_id
          branch := r.branch
          worktree := r.worktree
          target_branch := r.target_branch
          attempts := r.attempts
          queued_at := (c.decTime r.queued_at).getD c.now
          status := (EntryStatus.fromJson r.status).getD .Pending
          last_error := r.last_error
          conflict_files := (c.decFiles cf).getD [] }

/-- Embeds `StateManager::load_pending_entries` (state.rs:122-160): filter on the two
status literals, sort ascending by `queued_at`, convert each row, silently
dropping rows whose column access fails. -/
def load_pending_entries (c : Codec) (s : Store) : List QueueEntry :=
  (sortLe rowQueuedLe (s.queue_entries.filter rowMatchesRecovery)).filterMap
    (rowToEntry c)

/-- Embeds `StateManager::get_session_merges` (state.rs:184-208): filter
`merge_history` on the session id, sort ascending by `merged_at`, read each
row into a `MergeRecord` — reading a NULL `commit_sha` as `String` fails and
that row is dropped by `filter_map(|r| r.ok())` (state.rs:204). -/
def get_session_merges (session_id : String) (s : Store) : List MergeRecord :=
  (sortLe (fun a b => textLe a.merged_at b.merged_at)
      (s.merge_history.filter (fun m => m.session_id == session_id))).filterMap
    (fun m => m.commit_sha.map
      (fun sha => { agent_id := m.agent_id, commit_sha := sha,
                    merged_at := m.merged_at }))

/-- The `DaemonError` enum (error.rs:7-55); error payloads carried in textual form. -/
inductive DaemonError where
  | Git (msg : String)
  | Io (msg : String)
  | Database (msg : String)
  | Json (msg : String)
  | AgentNotFound (agent : String)
  | SessionNotFound (session : String)
  | BranchNotFound (branch : String)
  | MergeConflict (files : List String)
  | QueueFull (max : Nat)
  | AgentAlreadyQueued (agent : String)
  | InvalidRequest (msg : String)
  | Worktree (msg : String)
  | RebaseFailed (msg : String)
  | MaxRetriesExceeded (agent : String)
  | ShuttingDown
  | Config (msg : String)
deriving DecidableEq, Repr

/-- The `MergeStrategy` enum (config.rs:44-54). -/
inductive MergeStrategy where
  | Merge
  | Rebase
  | Squash
deriving DecidableEq, Repr

/-- The serde deserialization of `MergeStrategy` derived at config.rs:45-46:
`#[serde(rename_all = "lowercase")]` matches exactly the lowercase variant
names; `Config::from_file` (config.rs:76-80) delegates the `merge_strategy`
field to this and propagates its failure as an error. -/
def MergeStrategy.fromString (s : String) : Option MergeStrategy :=
  if s = "merge" then some .Merge
  else if s = "rebase" then some .Rebase
  else if s = "squash" then some .Squash
  else none

/-- A status is terminal when no further transition occurs (§4.1: Completed
and Failed). -/
def EntryStatus.isTerminal : EntryStatus → Bool
  | .Completed => true
  | .Failed => true
  | _ => false

/-- Count of non-terminal (active) entries in the in-memory queue. -/
def activeCount (q : List QueueEntry) : Nat :=
  (q.filter (fun e => !e.status.isTerminal)).length

/-- Modelled from the spec: `MergeQueue::enqueue` (§4.1; defined in the absent
`queue.rs`): fail with `QueueFull(max_queue_size)` when the active-entry count
is at or above `max_queue_size`, fail with `AgentAlreadyQueued` when the agent
already holds a non-terminal entry, otherwise append the entry as Pending. -/
def enqueue (max_queue_size : Nat) (q : List QueueEntry) (e : QueueEntry) :
    Except DaemonError (List QueueEntry) :=
  if max_queue_size ≤ activeCount q then
    .error (.QueueFull max_queue_size)
  else if q.any (fun x => x.agent_id == e.agent_id && !x.status.isTerminal) then
    .error (.AgentAlreadyQueued e.agent_id)
  else
    .ok (q ++ [{ e with status := .Pending }])

/-- Modelled from the spec: `MergeQueue::recover` (§4.1; defined in the absent
`queue.rs`): load every persisted Pending/Processing entry in ascending
`queued_at` order via `load_pending_entries`, resetting any entry found
Processing to Pending before it can be scheduled. -/
def recover (c : Codec) (s : Store) : List QueueEntry :=
  (load_pending_entries c s).map
    (fun e => if e.status = .Processing then { e with status := .Pending } else e)

/-- The outcome the Merge Executor reports for one attempt (§4.2). -/
inductive MergeOutcome where
  | Success (commit_sha : String)
  | ConflictFiles (files : List String)
  | TransientFailure (reason : String)
deriving DecidableEq, Repr

/-- The scheduler-relevant configuration options (config.rs:9-42). -/
structure EngineConfig where
  max_queue_size : Nat
  max_retries : Nat
  auto_rebase : Bool
deriving DecidableEq, Repr

/-- The Queue Engine's state: the in-memory FIFO mirrored by the durable
store (§2, §9). -/
structure Engine where
  fifo : List QueueEntry
  store : Store
deriving DecidableEq, Repr

/-- Modelled from the spec: one iteration of `MergeQueue::process_loop`
(§4.1; defined in the absent `queue.rs`).  The head of the FIFO moves to
Processing and is persisted; the Merge Executor's outcome (supplied as a
parameter, together with the wall-clock timestamp of the transition) then
drives it: on success transition Completed, append a MergeRecord and remove
the entry; on conflict populate `conflict_files` and increment `attempts`,
then — when `auto_rebase` holds and `attempts < max_retries` — transition
back to Pending at the back of the FIFO, otherwise transition Failed; a
transient failure follows the same retry logic without conflict files. -/
def process_step (cfg : EngineConfig) (c : Codec) (out : MergeOutcome)
    (st : Engine) : Engine :=
  match st.fifo with
  | [] => st
  | e :: rest =>
      let e1 : QueueEntry := { e with status := .Processing }
      let s1 := save_entry c e1 st.store
      match out with
      | .Success sha =>
          let s2 := record_merge e1.id e1.agent_id e1.session_id sha c.now s1
          { fifo := rest, store := delete_entry e1.id s2 }
      | .ConflictFiles files =>
          let e2 : QueueEntry :=
            { e1 with conflict_files := files, attempts := e1.attempts + 1,
                      status := .Conflict }
          if cfg.auto_rebase && e2.attempts < cfg.max_retries then
            let e3 : QueueEntry := { e2 with status := .Pending }
            { fifo := rest ++ [e3], store := save_entry c e3 s1 }
          else
            let e3 : QueueEntry := { e2 with status := .Failed }
            { fifo := rest, store := save_entry c e3 s1 }
      | .TransientFailure reason =>
          let e2 : QueueEntry :=
            { e1 with last_error := some reason, attempts := e1.attempts + 1 }
          if e2.attempts < cfg.max_retries then
            let e3 : QueueEntry := { e2 with status := .Pending }
            { fifo := rest ++ [e3], store := save_entry c e3 s1 }
          else
            let e3 : QueueEntry := { e2 with status := .Failed }
            { fifo := rest, store := save_entry c e3 s1 }

/-- Run `process_step` over a list of executor outcomes, each with the codec
(timestamp) of its step. -/
def process_run (cfg : EngineConfig) :
    List (Codec × MergeOutcome) → Engine → Engine
  | [], st => st
  | (c, out) :: rest, st => process_run cfg rest (process_step cfg c out st)

/-- What occupies the daemon's socket path: nothing, a stale file left by a
previous crash, or the socket freshly bound by the running server. -/
inductive SockFile where
  | absent
  | staleFile
  | freshFile
deriving DecidableEq, Repr

/-- Modelled from the spec: `IpcServer::new` (main.rs:94; `ipc.rs` is absent)
constructs the server without touching the socket path — the endpoint is
re-created when serving starts (§6 control-channel boundary). -/
def ipcNew (f : SockFile) : SockFile := f

/-- The stale-socket cleanup at main.rs:97-100: remove the file at the socket
path whenever one exists. -/
def removeSocketFile (f : SockFile) : SockFile :=
  match f with
  | _ => .absent

/-- Modelled from the spec: `IpcServer::run` (spawned at main.rs:103;
`ipc.rs` is absent) binds the listener, creating a fresh socket file at the
path, and serves on it (§6: the endpoint is re-created on startup). -/
def serveBind (_ : SockFile) : SockFile := .freshFile

/-- The startup sequence of `main` (main.rs:94-107): construct the server,
remove any stale socket file, then spawn the server which binds and serves. -/
def socketStartup (f : SockFile) : SockFile :=
  serveBind (removeSocketFile (ipcNew f))

/-- The shutdown cleanup of `main` (main.rs:130-133): remove the socket file
if it exists. -/
def socketShutdown (f : SockFile) : SockFile := removeSocketFile f

/-- The `queued_at` comparison lifted to entries. -/
def entryQueuedLe (a b : QueueEntry) : Bool := textLe a.queued_at b.queued_at

/-- The statuses matched by the recovery query's WHERE clause. -/
def EntryStatus.isActive : EntryStatus → Bool
  | .Pending => true
  | .Processing => true
  | _ => false

theorem charListLe_total (as bs : List Char) :
    charListLe as bs = true ∨ charListLe bs as = true := by
  induction as generalizing bs with
  | nil => exact .inl rfl
  | cons a as ih =>
      cases bs with
      | nil => exact .inr rfl
      | cons b bs =>
          simp only [charListLe]
          rcases Nat.lt_trichotomy a.toNat b.toNat with h | h | h
          · left; simp [h]
          · have h1 : ¬ a.toNat < b.toNat := by omega
            have h2 : ¬ b.toNat < a.toNat := by omega
            simpa [h1, h2] using ih bs
          · right; simp [h]

theorem textLe_total (a b : String) : textLe a b = true ∨ textLe b a = true :=
  charListLe_total a.toList b.toList

theorem insertLe_perm (le : α → α → Bool) (x : α) (l : List α) :
    (insertLe le x l).Perm (x :: l) := by
  induction l with
  | nil => exact .refl _
  | cons y ys ih =>
      simp only [insertLe]
      split
      · exact .refl _
      · exact ((ih.cons y).trans (List.Perm.swap x y ys))

theorem sortLe_perm (le : α → α → Bool) (l : List α) :
    (sortLe le l).Perm l := by
  induction l with
  | nil => exact .refl _
  | cons x xs ih => exact (insertLe_perm le x (sortLe le xs)).trans (ih.cons x)

theorem mem_sortLe (le : α → α → Bool) (l : List α) (x : α) :
    x ∈ sortLe le l ↔ x ∈ l :=
  (sortLe_perm le l).mem_iff

theorem insertLe_isSorted (le : α → α → Bool)
    (htot : ∀ a b, le a b = true ∨ le b a = true) (x : α) (l : List α)
    (h : isSortedLe le l = true) : isSortedLe le (insertLe le x l) = true := by
  induction l with
  | nil => rfl
  | cons y ys ih =>
      simp only [insertLe]
      by_cases hxy : le x y = true
      · simp only [hxy, if_true, isSortedLe, hxy, Bool.true_and]
        exact h
      · have hyx : le y x = true := (htot x y).resolve_left hxy
        simp only [hxy, if_false]
        cases ys with
        | nil => simp [insertLe, isSortedLe, hyx]
        | cons z zs =>
            have hh : le y z = true ∧ isSortedLe le (z :: zs) = true := by
              simpa [isSortedLe, Bool.and_eq_true] using h
            have ih2 : isSortedLe le (insertLe le x (z :: zs)) = true :=
              ih hh.2
            simp only [insertLe] at ih2 ⊢
            by_cases hxz : le x z = true
            · simp only [hxz, if_true] at ih2 ⊢
              simp [isSortedLe, hyx, Bool.and_eq_true] at ih2 ⊢
              exact ⟨hxz, ih2.2⟩
            · simp only [hxz, if_false] at ih2 ⊢
              simp [isSortedLe, Bool.and_eq_true] at ih2 ⊢
              exact ⟨hh.1, ih2⟩

theorem sortLe_isSorted (le : α → α → Bool)
    (htot : ∀ a b, le a b = true ∨ le b a = true) (l : List α) :
    isSortedLe le (sortLe le l) = true := by
  induction l with
  | nil => rfl
  | cons x xs ih => exact insertLe_isSorted le htot x (sortLe le xs) ih

theorem insertLe_map (le1 : α → α → Bool) (le2 : β → β → Bool) (f : α → β)
    (hle : ∀ a b, le2 (f a) (f b) = le1 a b) (x : α) (l : List α) :
    insertLe le2 (f x) (l.map f) = (insertLe le1 x l).map f := by
  induction l with
  | nil => rfl
  | cons y ys ih =>
      simp only [List.map, insertLe, hle]
      split
      · rfl
      · simp [ih]

theorem sortLe_map (le1 : α → α → Bool) (le2 : β → β → Bool) (f : α → β)
    (hle : ∀ a b, le2 (f a) (f b) = le1 a b) (l : List α) :
    sortLe le2 (l.map f) = (sortLe le1 l).map f := by
  induction l with
  | nil => rfl
  | cons x xs ih => simp only [List.map, sortLe, ih, insertLe_map le1 le2 f hle]

theorem insertLe_of_le_head (le : α → α → Bool) (x y : α) (ys : List α)
    (h : le x y = true) : insertLe le x (y :: ys) = x :: y :: ys := by
  simp [insertLe, h]

theorem sortLe_eq_self_of_pairwise (le : α → α → Bool) (l : List α)
    (h : l.Pairwise (fun a b => le a b = true)) : sortLe le l = l := by
  induction l with
  | nil => rfl
  | cons x xs ih =>
      have hx : ∀ y ∈ xs, le x y = true := (List.pairwise_cons.mp h).1
      have hxs := ih (List.pairwise_cons.mp h).2
      simp only [sortLe, hxs]
      cases xs with
      | nil => rfl
      | cons y ys => exact insertLe_of_le_head le x y ys (hx y (by simp))

/-- A concrete codec for evaluating the store operations: identity decoders,
a fixed fresh UUID and a fixed clock. -/
def codecId : Codec :=
  { decUuid := some
    decTime := some
    decFiles := fun _ => some []
    encFiles := fun _ => "[]"
    freshUuid := "99999999-9999-4999-8999-999999999999"
    now := "2026-01-01T00:00:09Z" }

/-- A concrete Pending entry for agent A. -/
def entryA : QueueEntry :=
  { id := "aaaaaaaa-0000-4000-8000-000000000001"
    agent_id := "agent-a"
    session_id := "sess-1"
    branch := "agent/a"
    worktree := "/wt/a"
    target_branch := "feature/x"
    attempts := 0
    queued_at := "2026-01-01T00:00:01Z"
    status := .Pending
    last_error := none
    conflict_files := [] }

/-- A concrete Pending entry for agent B, queued after `entryA`. -/
def entryB : QueueEntry :=
  { id := "bbbbbbbb-0000-4000-8000-000000000002"
    agent_id := "agent-b"
    session_id := "sess-1"
    branch := "agent/b"
    worktree := "/wt/b"
    target_branch := "feature/x"
    attempts := 0
    queued_at := "2026-01-01T00:00:02Z"
    status := .Pending
    last_error := none
    conflict_files := [] }

/-- C1: for both statuses the recovery query cares about, the textual form
that `save_entry` writes into the status column (the serde_json serialization
of the status) is exactly a literal of the recovery query's `WHERE status IN
('"Pending"', '"Processing"')` clause, so the saved row matches the filter. -/
theorem save_status_matches_recovery_filter (c : Codec) (e : QueueEntry)
    (h : e.status = .Pending ∨ e.status = .Processing) :
    EntryStatus.toJson .Pending = "\"Pending\"" ∧
    EntryStatus.toJson .Processing = "\"Processing\"" ∧
    (entryToRow c e).status = e.status.toJson ∧
    rowMatchesRecovery (entryToRow c e) = true := by
  refine ⟨rfl, rfl, rfl, ?_⟩
  rcases h with h | h <;>
    simp [rowMatchesRecovery, entryToRow, EntryStatus.toJson, h]

/-- C1 witness: a concrete Pending entry's saved row matches the filter. -/
theorem save_status_matches_recovery_filter_witness :
    (entryA.status = .Pending ∨ entryA.status = .Processing) ∧
    rowMatchesRecovery (entryToRow codecId entryA) = true :=
  ⟨Or.inl rfl,
    (save_status_matches_recovery_filter codecId entryA (Or.inl rfl)).2.2.2⟩

/-- C6: `save_entry` is a replace-on-write keyed by entry id — the freshly
written row is present, it is the only row carrying that id, rows with any
other id are untouched, the other tables are untouched, and saving the same
entry twice (at one write timestamp) equals saving it once. -/
theorem save_entry_replace_idempotent (c : Codec) (e : QueueEntry) (s : Store) :
    entryToRow c e ∈ (save_entry c e s).queue_entries ∧
    (∀ r, r ∈ (save_entry c e s).queue_entries → r.id = e.id →
      r = entryToRow c e) ∧
    (∀ r, r.id ≠ e.id →
      (r ∈ (save_entry c e s).queue_entries ↔ r ∈ s.queue_entries)) ∧
    (save_entry c e s).sessions = s.sessions ∧
    (save_entry c e s).merge_history = s.merge_history ∧
    save_entry c e (save_entry c e s) = save_entry c e s := by
  refine ⟨by simp [save_entry], ?_, ?_, rfl, rfl, ?_⟩
  · intro r hr hid
    rcases List.mem_append.mp hr with hr | hr
    · have := List.of_mem_filter hr
      simp [hid] at this
    · simpa using hr
  · intro r hid
    constructor
    · intro hr
      rcases List.mem_append.mp hr with hr | hr
      · exact List.mem_of_mem_filter hr
      · have : r = entryToRow c e := by simpa using hr
        rw [this] at hid
        simp [entryToRow] at hid
    · intro hr
      exact List.mem_append.mpr (.inl (List.mem_filter.mpr ⟨hr, by simp [hid]⟩))
  · simp only [save_entry, List.filter_append, List.filter_filter]
    simp [entryToRow]

/-- C6 witness: double save at a concrete entry and store equals single
save. -/
theorem save_entry_replace_idempotent_witness :
    save_entry codecId entryA (save_entry codecId entryA Store.empty) =
      save_entry codecId entryA Store.empty :=
  (save_entry_replace_idempotent codecId entryA Store.empty).2.2.2.2.2

/-- C7: `delete_entry` acts on the `queue_entries` table only — every
merge-history row and every sessions row is unchanged; the row with the
deleted id is gone from the active table and every row with another id
survives. -/
theorem delete_entry_frame (id : String) (s : Store) :
    (delete_entry id s).merge_history = s.merge_history ∧
    (delete_entry id s).sessions = s.sessions ∧
    (∀ r ∈ (delete_entry id s).queue_entries, r.id ≠ id) ∧
    (∀ r ∈ s.queue_entries, r.id ≠ id → r ∈ (delete_entry id s).queue_entries) := by
  refine ⟨rfl, rfl, ?_, ?_⟩
  · intro r hr
    have := List.of_mem_filter hr
    simpa using this
  · intro r hr hid
    exact List.mem_filter.mpr ⟨hr, by simp [hid]⟩

/-- C7 witness: deleting `entryA`'s id from a store holding `entryA` and a
merge-history row leaves the history untouched. -/
theorem delete_entry_frame_witness :
    (delete_entry entryA.id
        (record_merge entryA.id entryA.agent_id entryA.session_id "sha1"
          "2026-01-01T00:00:03Z"
          (save_entry codecId entryA Store.empty))).merge_history =
      (record_merge entryA.id entryA.agent_id entryA.session_id "sha1"
        "2026-01-01T00:00:03Z"
        (save_entry codecId entryA Store.empty)).merge_history :=
  (delete_entry_frame entryA.id
    (record_merge entryA.id entryA.agent_id entryA.session_id "sha1"
      "2026-01-01T00:00:03Z" (save_entry codecId entryA Store.empty))).1

/-- C8: the derived `merge_strategy` deserialization accepts exactly the
three lowercase strings, mapping them to the corresponding strategies, and
rejects every other string (so `Config::from_file` errors on it). -/
theorem merge_strategy_from_string_exact (s : String)
    (h1 : s ≠ "merge") (h2 : s ≠ "rebase") (h3 : s ≠ "squash") :
    MergeStrategy.fromString "merge" = some .Merge ∧
    MergeStrategy.fromString "rebase" = some .Rebase ∧
    MergeStrategy.fromString "squash" = some .Squash ∧
    MergeStrategy.fromString s = none := by
  refine ⟨by simp [MergeStrategy.fromString], by simp [MergeStrategy.fromString],
    by simp [MergeStrategy.fromString], ?_⟩
  simp [MergeStrategy.fromString, h1, h2, h3]

/-- C8 witness: the capitalized string "Merge" is rejected while the three
lowercase strings are accepted. -/
theorem merge_strategy_from_string_exact_witness :
    MergeStrategy.fromString "merge" = some .Merge ∧
    MergeStrategy.fromString "Merge" = none :=
  ⟨(merge_strategy_from_string_exact "Merge" (by decide) (by decide)
      (by decide)).1,
   (merge_strategy_from_string_exact "Merge" (by decide) (by decide)
      (by decide)).2.2.2⟩

/-- C9: whatever occupied the socket path beforehand, the stale file is
removed before serving starts, the daemon serves on a freshly bound socket
file (never a stale one), and clean shutdown removes the socket file. -/
theorem socket_lifecycle (f0 : SockFile) :
    removeSocketFile (ipcNew f0) = .absent ∧
    socketStartup f0 = .freshFile ∧
    socketShutdown (socketStartup f0) = .absent := by
  cases f0 <;> exact ⟨rfl, rfl, rfl⟩

theorem fromJson_toJson (st : EntryStatus) :
    EntryStatus.fromJson st.toJson = some st := by
  cases st <;> rfl

theorem rowMatch_entryToRow (c : Codec) (e : QueueEntry) :
    rowMatchesRecovery (entryToRow c e) = e.status.isActive := by
  cases h : e.status <;>
    simp [rowMatchesRecovery, entryToRow, EntryStatus.toJson,
      EntryStatus.isActive, h]

theorem rowToEntry_entryToRow (c : Codec) (e : QueueEntry)
    (h1 : c.decUuid e.id = some e.id)
    (h2 : c.decTime e.queued_at = some e.queued_at)
    (h3 : c.decFiles (c.encFiles e.conflict_files) = some e.conflict_files) :
    rowToEntry c (entryToRow c e) = some e := by
  obtain ⟨id, aid, sid, br, wt, tb, att, qa, st, lerr, cf⟩ := e
  simp only [entryToRow] at h1 h2 h3 ⊢
  simp [rowToEntry, h1, h2, h3, fromJson_toJson]

theorem filterMap_map_eq_self {g : α → β} {h : β → Option α} (l : List α)
    (hl : ∀ e ∈ l, h (g e) = some e) : (l.map g).filterMap h = l := by
  induction l with
  | nil => rfl
  | cons x xs ih =>
      simp only [List.map_cons, List.filterMap_cons, hl x (by simp)]
      rw [ih (fun e he => hl e (by simp [he]))]

/-- An entry of a third agent that has already completed; its row must not be
matched by the recovery query. -/
def entryC : QueueEntry :=
  { id := "cccccccc-0000-4000-8000-000000000003"
    agent_id := "agent-c"
    session_id := "sess-1"
    branch := "agent/c"
    worktree := "/wt/c"
    target_branch := "feature/x"
    attempts := 1
    queued_at := "2026-01-01T00:00:00Z"
    status := .Completed
    last_error := none
    conflict_files := [] }

/-- A store holding the saved rows of `entryB`, `entryA`, `entryC`, in an
order that differs from their `queued_at` order. -/
def storeABC : Store :=
  { queue_entries := [entryB, entryA, entryC].map (entryToRow codecId)
    sessions := []
    merge_history := []
    next_merge_id := 1 }

/-- C2: on a table of rows persisted by `save_entry` for entries the codecs
round-trip, the recovery read returns exactly the entries whose status is
Pending or Processing — the result is their stable sort by `queued_at`, it is
sorted ascending, and membership is exactly filtered membership (so an entry
in any other status is never returned). -/
theorem load_pending_entries_exact (c : Codec) (es : List QueueEntry)
    (s : Store) (hs : s.queue_entries = es.map (entryToRow c))
    (hinv : ∀ e ∈ es, c.decUuid e.id = some e.id ∧
      c.decTime e.queued_at = some e.queued_at ∧
      c.decFiles (c.encFiles e.conflict_files) = some e.conflict_files) :
    load_pending_entries c s =
      sortLe entryQueuedLe (es.filter (fun e => e.status.isActive)) ∧
    isSortedLe entryQueuedLe (load_pending_entries c s) = true ∧
    (∀ e, e ∈ load_pending_entries c s ↔
      (e ∈ es ∧ (e.status = .Pending ∨ e.status = .Processing))) := by
  have hact : ∀ e : QueueEntry,
      e.status.isActive = true ↔ (e.status = .Pending ∨ e.status = .Processing) := by
    intro e
    cases e.status <;> simp [EntryStatus.isActive]
  have hmain : load_pending_entries c s =
      sortLe entryQueuedLe (es.filter (fun e => e.status.isActive)) := by
    rw [load_pending_entries, hs, List.filter_map]
    have hcomp : (rowMatchesRecovery ∘ entryToRow c) =
        (fun e : QueueEntry => e.status.isActive) :=
      funext (fun e => rowMatch_entryToRow c e)
    rw [hcomp]
    rw [sortLe_map entryQueuedLe rowQueuedLe (entryToRow c) (fun a b => rfl)]
    refine filterMap_map_eq_self _ (fun e he => ?_)
    have he2 : e ∈ es :=
      List.mem_of_mem_filter ((mem_sortLe entryQueuedLe _ e).mp he)
    obtain ⟨ha, hb, hc⟩ := hinv e he2
    exact rowToEntry_entryToRow c e ha hb hc
  refine ⟨hmain, ?_, ?_⟩
  · rw [hmain]
    exact sortLe_isSorted entryQueuedLe
      (fun a b => textLe_total a.queued_at b.queued_at) _
  · intro e
    rw [hmain, mem_sortLe, List.mem_filter, hact]

/-- C2 witness: loading a concrete store whose rows were saved out of
`queued_at` order returns the Pending entries sorted by `queued_at`, with the
Completed entry absent. -/
theorem load_pending_entries_exact_witness :
    load_pending_entries codecId storeABC = [entryA, entryB] := by
  have h := (load_pending_entries_exact codecId [entryB, entryA, entryC]
    storeABC rfl (by decide)).1
  rw [h]
  decide

/-- An entry persisted mid-merge: its row carries the Processing status. -/
def entryP : QueueEntry :=
  { id := "dddddddd-0000-4000-8000-000000000004"
    agent_id := "agent-p"
    session_id := "sess-2"
    branch := "agent/p"
    worktree := "/wt/p"
    target_branch := "feature/x"
    attempts := 1
    queued_at := "2026-01-01T00:00:04Z"
    status := .Processing
    last_error := none
    conflict_files := [] }

/-- A store whose only active row survived a crash in the Processing
status. -/
def storeP : Store :=
  { queue_entries := [entryToRow codecId entryP]
    sessions := []
    merge_history := []
    next_merge_id := 1 }

/-- C3: every entry repopulated by `recover` has status Pending — the rows
the recovery query admits parse to Pending or Processing, and `recover`
resets the surviving Processing entries to Pending before they can be
scheduled. -/
theorem recover_resets_processing (c : Codec) (s : Store) (e : QueueEntry)
    (he : e ∈ recover c s) : e.status = .Pending := by
  simp only [recover, List.mem_map] at he
  obtain ⟨e0, he0, rfl⟩ := he
  simp only [load_pending_entries, List.mem_filterMap] at he0
  obtain ⟨r, hr, hconv⟩ := he0
  have hr2 : r ∈ s.queue_entries.filter rowMatchesRecovery :=
    (mem_sortLe rowQueuedLe _ r).mp hr
  have hmatch : rowMatchesRecovery r = true := List.of_mem_filter hr2
  have hst : r.status = "\"Pending\"" ∨ r.status = "\"Processing\"" := by
    simpa [rowMatchesRecovery, Bool.or_eq_true, beq_iff_eq] using hmatch
  have hstatus : e0.status = .Pending ∨ e0.status = .Processing := by
    cases hcf : r.conflict_files with
    | none => simp [rowToEntry, hcf] at hconv
    | some cf =>
        simp only [rowToEntry, hcf] at hconv
        have := (Option.some.injEq _ _).mp hconv
        rcases hst with h | h <;>
          simp [← this, h, EntryStatus.fromJson]
  rcases hstatus with h | h
  · simp [h]
  · simp [h]

/-- C3 witness: recovering the crashed store yields the Processing entry
reset to Pending. -/
theorem recover_resets_processing_witness :
    ({ entryP with status := .Pending } ∈ recover codecId storeP) ∧
    ({ entryP with status := .Pending } : QueueEntry).status = .Pending :=
  ⟨by decide,
   recover_resets_processing codecId storeP { entryP with status := .Pending }
     (by decide)⟩

/-- A codec all of whose decoders fail, forcing every fallback. -/
def codecNone : Codec :=
  { decUuid := fun _ => none
    decTime := fun _ => none
    decFiles := fun _ => none
    encFiles := fun _ => "[]"
    freshUuid := "99999999-9999-4999-8999-999999999999"
    now := "2026-01-01T00:00:09Z" }

/-- A row whose id, timestamp, status and conflict list are all malformed. -/
def rowBad : RawRow :=
  { id := "not-a-uuid"
    agent_id := "agent-x"
    session_id := "sess-9"
    branch := "agent/x"
    worktree := "/wt/x"
    target_branch := "feature/x"
    attempts := 2
    queued_at := "garbage-date"
    status := "\"Pending\""
    last_error := some "boom"
    conflict_files := some "not json"
    updated_at := "2026-01-01T00:00:05Z" }

/-- C10: row conversion during recovery never aborts on malformed stored
fields — an unparseable id falls back to the freshly generated UUID, an
unparseable timestamp to the current time, an unparseable status to Pending,
a malformed conflict-file list to the empty list; a row whose column access
errors (NULL `conflict_files` read as TEXT) is dropped, so a store of such
rows still recovers to an (empty) entry list rather than failing. -/
theorem load_pending_entries_fallbacks (c : Codec) (r : RawRow) (cf : String)
    (hcf : r.conflict_files = some cf)
    (hid : c.decUuid r.id = none)
    (ht : c.decTime r.queued_at = none)
    (hst : EntryStatus.fromJson r.status = none)
    (hf : c.decFiles cf = none) :
    rowToEntry c r =
      some { id := c.freshUuid
             agent_id := r.agent_id
             session_id := r.session_id
             branch := r.branch
             worktree := r.worktree
             target_branch := r.target_branch
             attempts := r.attempts
             queued_at := c.now
             status := .Pending
             last_error := r.last_error
             conflict_files := [] } ∧
    (∀ r2 : RawRow, r2.conflict_files = none → rowToEntry c r2 = none) ∧
    (∀ s : Store, (∀ r2 ∈ s.queue_entries, r2.conflict_files = none) →
      load_pending_entries c s = []) := by
  refine ⟨by simp [rowToEntry, hcf, hid, ht, hst, hf], ?_, ?_⟩
  · intro r2 h2
    simp [rowToEntry, h2]
  · intro s hall
    rw [load_pending_entries, List.filterMap_eq_nil_iff]
    intro r2 hr2
    have : r2 ∈ s.queue_entries :=
      List.mem_of_mem_filter ((mem_sortLe rowQueuedLe _ r2).mp hr2)
    simp [rowToEntry, hall r2 this]

/-- C10 witness: the fully malformed row converts to the all-fallbacks entry
under the all-failing codec (its well-formed status string still parses,
so the status hypothesis is exercised on a corrupted variant). -/
theorem load_pending_entries_fallbacks_witness :
    rowToEntry codecNone { rowBad with status := "Pending" } =
      some { id := codecNone.freshUuid
             agent_id := rowBad.agent_id
             session_id := rowBad.session_id
             branch := rowBad.branch
             worktree := rowBad.worktree
             target_branch := rowBad.target_branch
             attempts := rowBad.attempts
             queued_at := codecNone.now
             status := .Pending
             last_error := rowBad.last_error
             conflict_files := [] } :=
  (load_pending_entries_fallbacks codecNone
    { rowBad with status := "Pending" } "not json" rfl rfl rfl (by decide)
    rfl).1

/-- C5: with the active-entry count at or above `max_queue_size`, `enqueue`
returns `QueueFull` carrying the configured maximum and adds nothing; and
whenever the bound holds before an enqueue, it still holds after, so the
active count never exceeds `max_queue_size`. -/
theorem enqueue_bounded (max_queue_size : Nat) (q : List QueueEntry)
    (e : QueueEntry) :
    (max_queue_size ≤ activeCount q →
      enqueue max_queue_size q e = .error (.QueueFull max_queue_size)) ∧
    (activeCount q ≤ max_queue_size → ∀ q2,
      enqueue max_queue_size q e = .ok q2 →
      activeCount q2 ≤ max_queue_size) := by
  constructor
  · intro h
    simp [enqueue, h]
  · intro hb q2 hok
    by_cases hfull : max_queue_size ≤ activeCount q
    · simp [enqueue, hfull] at hok
    · by_cases hdup :
        q.any (fun x => x.agent_id == e.agent_id && !x.status.isTerminal) = true
      · simp [enqueue, hfull, hdup] at hok
      · simp only [enqueue] at hok
        rw [if_neg hfull, if_neg hdup] at hok
        simp only [Except.ok.injEq] at hok
        subst hok
        have : activeCount (q ++ [{ e with status := .Pending }]) =
            activeCount q + 1 := by
          simp [activeCount, List.filter_append, EntryStatus.isTerminal]
        omega

/-- C5 witness: with `max_queue_size = 1` and one active entry, enqueueing
returns `QueueFull 1`; with `max_queue_size = 2` the enqueue succeeds and the
active count stays within the bound. -/
theorem enqueue_bounded_witness :
    enqueue 1 [entryA] entryB = .error (.QueueFull 1) ∧
    activeCount [entryA, { entryB with status := .Pending }] ≤ 2 :=
  ⟨(enqueue_bounded 1 [entryA] entryB).1 (by decide),
   (enqueue_bounded 2 [entryA] entryB).2 (by decide)
     [entryA, { entryB with status := .Pending }] (by rfl)⟩

/-- A codec whose clock reads the given timestamp. -/
def codecAt (t : String) : Codec := { codecId with now := t }

/-- Scheduler configuration with conflict requeue enabled (the defaults of
config.rs:56-71: `auto_rebase = true`, `max_retries = 3`). -/
def cfgAuto : EngineConfig :=
  { max_queue_size := 100, max_retries := 3, auto_rebase := true }

/-- The executor outcomes of the counterexample run: the head entry (agent A)
conflicts once and is requeued to the back, agent B then merges, and agent A
merges on its second attempt. -/
def traceBA : List (Codec × MergeOutcome) :=
  [(codecAt "2026-01-01T00:01:00Z", .ConflictFiles ["src/lib.rs"]),
   (codecAt "2026-01-01T00:02:00Z", .Success "sha-b"),
   (codecAt "2026-01-01T00:03:00Z", .Success "sha-a")]

/-- The engine state after enqueueing agent A and then agent B. -/
def engineAB : Engine := { fifo := [entryA, entryB], store := Store.empty }

/-- C4 counterexample: agents A and B are enqueued in that order, neither
ends Failed (both commits are recorded and the queue drains), yet the
session's merge history lists agent B before agent A — a conflict requeue
put A behind B, so history order is not enqueue order. -/
theorem session_merges_counterexample :
    enqueue 100 [] entryA = .ok [entryA] ∧
    enqueue 100 [entryA] entryB = .ok [entryA, entryB] ∧
    (process_run cfgAuto traceBA engineAB).fifo = [] ∧
    (get_session_merges "sess-1"
        (process_run cfgAuto traceBA engineAB).store).map
      (fun r => r.agent_id) = ["agent-b", "agent-a"] ∧
    (["agent-b", "agent-a"] : List String) ≠
      [entryA.agent_id, entryB.agent_id] := by
  refine ⟨by rfl, by rfl, by decide, by decide, by decide⟩

/-- One `record_merge` call: its four textual arguments plus the
CURRENT_TIMESTAMP the row receives. -/
structure RecordInput where
  entry_id : String
  agent_id : String
  session_id : String
  commit_sha : String
  now : String
deriving DecidableEq, Repr

/-- Fold a sequence of `record_merge` calls over the store. -/
def applyRecords : List RecordInput → Store → Store
  | [], s => s
  | r :: rest, s =>
      applyRecords rest
        (record_merge r.entry_id r.agent_id r.session_id r.commit_sha r.now s)

/-- The `MergeRecord` that `get_session_merges` reads back for one
recording. -/
def inputRecord (r : RecordInput) : MergeRecord :=
  { agent_id := r.agent_id, commit_sha := r.commit_sha, merged_at := r.now }

/-- The `merge_history` rows produced by a sequence of recordings, with
AUTOINCREMENT ids from `n`. -/
def historyRows (n : Nat) : List RecordInput → List MergeRow
  | [] => []
  | r :: rest =>
      { id := n
        entry_id := r.entry_id
        agent_id := r.agent_id
        session_id := r.session_id
        commit_sha := some r.commit_sha
        merged_at := r.now } :: historyRows (n + 1) rest

theorem applyRecords_history (rs : List RecordInput) : ∀ s : Store,
    (applyRecords rs s).merge_history =
      s.merge_history ++ historyRows s.next_merge_id rs := by
  induction rs with
  | nil => intro s; simp [applyRecords, historyRows]
  | cons r rest ih =>
      intro s
      rw [applyRecords, ih]
      simp [record_merge, historyRows]

theorem mem_historyRows_now (rs : List RecordInput) : ∀ n y,
    y ∈ historyRows n rs → ∃ r ∈ rs, y.merged_at = r.now := by
  induction rs with
  | nil => intro n y h; simp [historyRows] at h
  | cons r rest ih =>
      intro n y h
      rw [historyRows, List.mem_cons] at h
      rcases h with h | h
      · exact ⟨r, by simp, by simp [h]⟩
      · obtain ⟨r2, hr2, hy⟩ := ih (n + 1) y h
        exact ⟨r2, by simp [hr2], hy⟩

theorem historyRows_pairwise (rs : List RecordInput)
    (h : rs.Pairwise (fun a b => textLt a.now b.now = true)) : ∀ n,
    (historyRows n rs).Pairwise
      (fun x y => textLe x.merged_at y.merged_at = true) := by
  induction rs with
  | nil => intro n; simp [historyRows]
  | cons r rest ih =>
      intro n
      rw [List.pairwise_cons] at h
      rw [historyRows, List.pairwise_cons]
      refine ⟨?_, ih h.2 (n + 1)⟩
      intro y hy
      obtain ⟨r2, hr2, hnow⟩ := mem_historyRows_now rest (n + 1) y hy
      have hlt : textLt r.now r2.now = true := h.1 r2 hr2
      rw [hnow]
      exact (Bool.and_eq_true _ _).mp hlt |>.1

theorem historyRows_session_read (sid : String) (rs : List RecordInput) :
    ∀ n,
    ((historyRows n rs).filter (fun m => m.session_id == sid)).filterMap
        (fun m => m.commit_sha.map
          (fun sha => ({ agent_id := m.agent_id, commit_sha := sha,
                         merged_at := m.merged_at } : MergeRecord))) =
      (rs.filter (fun r => r.session_id == sid)).map inputRecord := by
  induction rs with
  | nil => intro n; rfl
  | cons r rest ih =>
      intro n
      by_cases h : r.session_id == sid
      · simp only [historyRows, List.filter_cons, h, if_true,
          List.filterMap_cons, Option.map_some]
        rw [ih (n + 1)]
        simp [inputRecord]
      · simp only [historyRows, List.filter_cons, h]
        simp only [Bool.false_eq_true, if_false]
        exact ih (n + 1)

/-- C4 amended: for a session whose recordings carry strictly increasing
`merged_at` timestamps, `get_session_merges` returns exactly one record per
successful merge, in the order the merges were recorded (completion order);
and no non-success outcome of a processing step ever writes a merge-history
row, so entries that ended Failed are absent. -/
theorem session_merges_in_recording_order (sid : String)
    (rs : List RecordInput) (s : Store) (hempty : s.merge_history = [])
    (hmono : rs.Pairwise (fun a b => textLt a.now b.now = true)) :
    get_session_merges sid (applyRecords rs s) =
      (rs.filter (fun r => r.session_id == sid)).map inputRecord ∧
    (∀ cfg c files st, (process_step cfg c (.ConflictFiles files)
        st).store.merge_history = st.store.merge_history) ∧
    (∀ cfg c reason st, (process_step cfg c (.TransientFailure reason)
        st).store.merge_history = st.store.merge_history) := by
  refine ⟨?_, ?_, ?_⟩
  · rw [get_session_merges, applyRecords_history, hempty, List.nil_append]
    have hp : ((historyRows s.next_merge_id rs).filter
        (fun m => m.session_id == sid)).Pairwise
        (fun x y => textLe x.merged_at y.merged_at = true) :=
      (historyRows_pairwise rs hmono s.next_merge_id).filter _
    rw [sortLe_eq_self_of_pairwise _ _ hp]
    exact historyRows_session_read sid rs s.next_merge_id
  · intro cfg c files st
    rcases st with ⟨fifo, store⟩
    cases fifo with
    | nil => rfl
    | cons e rest =>
        simp only [process_step]
        split <;> rfl
  · intro cfg c reason st
    rcases st with ⟨fifo, store⟩
    cases fifo with
    | nil => rfl
    | cons e rest =>
        simp only [process_step]
        split <;> rfl

/-- C4 amended witness: three recordings across two sessions with increasing
timestamps read back, for the queried session, in recording order. -/
theorem session_merges_in_recording_order_witness :
    get_session_merges "sess-1"
      (applyRecords
        [{ entry_id := entryB.id, agent_id := "agent-b",
           session_id := "sess-1", commit_sha := "sha-b",
           now := "2026-01-01T00:02:00Z" },
         { entry_id := entryP.id, agent_id := "agent-p",
           session_id := "sess-2", commit_sha := "sha-p",
           now := "2026-01-01T00:02:30Z" },
         { entry_id := entryA.id, agent_id := "agent-a",
           session_id := "sess-1", commit_sha := "sha-a",
           now := "2026-01-01T00:03:00Z" }] Store.empty) =
      [{ agent_id := "agent-b", commit_sha := "sha-b",
         merged_at := "2026-01-01T00:02:00Z" },
       { agent_id := "agent-a", commit_sha := "sha-a",
         merged_at := "2026-01-01T00:03:00Z" }] := by
  have h := (session_merges_in_recording_order "sess-1"
    [{ entry_id := entryB.id, agent_id := "agent-b", session_id := "sess-1",
       commit_sha := "sha-b", now := "2026-01-01T00:02:00Z" },
     { entry_id := entryP.id, agent_id := "agent-p", session_id := "sess-2",
       commit_sha := "sha-p", now := "2026-01-01T00:02:30Z" },
     { entry_id := entryA.id, agent_id := "agent-a", session_id := "sess-1",
       commit_sha := "sha-a", now := "2026-01-01T00:03:00Z" }]
    Store.empty rfl (by decide)).1
  rw [h]
  decide

end ForkJoin
